import Mathlib

/-!
Verification of the AR-tools demo notebooks.

The repository consists of two Jupyter notebooks:
* "The connection between DSRs and CSTRs": autocatalytic kinetics `rate_fn`,
  the DSR right-hand side `dsr_fn`, a continuation loop computing the CSTR
  locus `cstr_cs` over a log-spaced residence-time grid `cstr_ts`, and an
  interactive plot driver `plot_fn`.
* "Bounding hyperplane demo": an interactive polytope demo whose `plot_fn`
  builds a fixed constraint matrix and a slider-dependent bound vector.

The numeric code is embedded shallowly: concentration vectors `[cA, cB]`
become pairs over a field `K` (instantiated at `ℚ` for concrete evaluation
and at `ℝ` for the logarithmic grids); decimal literals of the source such
as `0.1`, `1e-3` and `5e4` are modelled as the exact rationals `1/10`,
`1/1000` and `50000`.  External library routines (`scipy.optimize.newton_krylov`,
`scipy.integrate.odeint`, `artools.con2vert`) are abstracted as function
parameters, since the claims only concern what the notebook passes to them
and how it uses their results.
-/

namespace DsrCstr

/-- Autocatalytic kinetics (`rate_fn(C, t)` in the notebook):
`rA = -k1*cA*cB`, `rB = k1*cA*cB - k2*cB**2` with `k1 = k2 = 1.0`.
The time argument `t` is never used by the body; the notebook itself passes
values of different types for it (a float from `odeint`, the empty list `[]`
from `cstr_fn`), so it is embedded with a polymorphic type `T`. -/
def rate_fn {K : Type} [Field K] {T : Type} (C : K × K) (t : T) : K × K :=
  let cA := C.1
  let cB := C.2
  let k1 : K := 1
  let k2 : K := 1
  let rA := -k1 * cA * cB
  let rB := k1 * cA * cB - k2 * cB ^ 2
  (rA, rB)

/-- DSR right-hand side (`dsr_fn(C, t, opts)` in the notebook):
kinetics rate plus the linear relaxation term `alpha*(C0 - C)`, where
`opts = (alpha, C0)`. -/
def dsr_fn {K : Type} [Field K] {T : Type} (C : K × K) (t : T)
    (opts : K × (K × K)) : K × K :=
  let alpha := opts.1
  let C0 := opts.2
  rate_fn C t + alpha • (C0 - C)

/-- CSTR feed vector `cstr_cf = sp.array([1.0, 0.1])`. -/
def cstr_cf {K : Type} [Field K] : K × K := (1, 1 / 10)

/-- CSTR residual (`cstr_fn(Ci)` defined inside the locus loop):
`f = cstr_cf + tau*rate_fn(Ci, []) - Ci`.  The captured loop variable `tau`
is an explicit argument here; the time argument is the empty list, exactly
as in the source. -/
def cstr_fn {K : Type} [Field K] (tau : K) (Ci : K × K) : K × K :=
  let ri := rate_fn Ci ([] : List K)
  cstr_cf + tau • ri - Ci

/-- The body of the CSTR locus loop.  For each residence time the abstract
root-finder `solve` (modelling `scipy.optimize.newton_krylov`) is applied to
the residual `cstr_fn tau` with the current guess; its result is appended to
the locus and becomes the guess for the next residence time. -/
def cstr_locus_aux {K : Type} [Field K]
    (solve : ((K × K) → (K × K)) → (K × K) → (K × K)) :
    List K → (K × K) → List (K × K)
  | [], _ => []
  | tau :: rest, c_guess =>
    let Ci := solve (cstr_fn tau) c_guess
    Ci :: cstr_locus_aux solve rest Ci

/-- The CSTR locus `cstr_cs`: the loop over the residence times `taus`,
with the initial guess `c_guess = cstr_cf` (line `c_guess = cstr_cf` of the
notebook). -/
def cstr_cs {K : Type} [Field K]
    (solve : ((K × K) → (K × K)) → (K × K) → (K × K)) (taus : List K) :
    List (K × K) :=
  cstr_locus_aux solve taus cstr_cf

/-- C1: for every residence time `tau`, the residual handed to the
root-finder is exactly `f(C) = Cf + tau*rate_fn(C) - C` with feed
`Cf = cstr_cf = [1, 1/10]` (the exact value of `[1.0, 0.1]`); componentwise
it is `(1 + tau*(-cA*cB) - cA, 1/10 + tau*(cA*cB - cB^2) - cB)`, and any
exact root `C` of the residual satisfies `Cf + tau*rate(C) = C`. -/
theorem cstr_fn_residual {K : Type} [Field K] (tau : K) (C : K × K) :
    cstr_fn tau C = cstr_cf + tau • rate_fn C ([] : List K) - C ∧
    cstr_cf = ((1 : K), 1 / 10) ∧
    cstr_fn tau C
      = (1 + tau * (-(C.1 * C.2)) - C.1,
         1 / 10 + tau * (C.1 * C.2 - C.2 ^ 2) - C.2) ∧
    (cstr_fn tau C = 0 → cstr_cf + tau • rate_fn C ([] : List K) = C) := by
  refine ⟨rfl, rfl, ?_, fun h => sub_eq_zero.mp h⟩
  obtain ⟨c1, c2⟩ := C
  simp only [cstr_fn, rate_fn, cstr_cf, Prod.mk_add_mk, Prod.mk_sub_mk,
    Prod.smul_mk, smul_eq_mul, Prod.mk.injEq]
  constructor <;> ring

/-- Witness for C1 at the exact root `C = (1/10, 1/10)` of the residual for
`tau = 90`. -/
theorem cstr_fn_residual_witness :
    cstr_fn (90 : ℚ) (1 / 10, 1 / 10) = 0 ∧
    cstr_cf + (90 : ℚ) • rate_fn ((1 / 10 : ℚ), (1 / 10 : ℚ)) ([] : List ℚ)
      = (1 / 10, 1 / 10) :=
  have h : cstr_fn (90 : ℚ) (1 / 10, 1 / 10) = 0 := by
    simp only [cstr_fn, rate_fn, cstr_cf, Prod.mk_add_mk, Prod.mk_sub_mk,
      Prod.smul_mk, smul_eq_mul, Prod.mk_eq_zero]
    norm_num
  ⟨h, (cstr_fn_residual 90 (1 / 10, 1 / 10)).2.2.2 h⟩

/-- C3: the DSR right-hand side is the kinetics rate plus the linear
relaxation term `alpha*(C0 - C)`, for every `C`, `t`, `alpha` and `C0`;
componentwise it is
`(-cA*cB + alpha*(c0A - cA), cA*cB - cB^2 + alpha*(c0B - cB))`. -/
theorem dsr_fn_spec {K : Type} [Field K] {T : Type} (C : K × K) (t : T)
    (alpha : K) (C0 : K × K) :
    dsr_fn C t (alpha, C0) = rate_fn C t + alpha • (C0 - C) ∧
    dsr_fn C t (alpha, C0)
      = (-(C.1 * C.2) + alpha * (C0.1 - C.1),
         C.1 * C.2 - C.2 ^ 2 + alpha * (C0.2 - C.2)) := by
  refine ⟨rfl, ?_⟩
  simp only [dsr_fn, rate_fn, Prod.mk.injEq]
  obtain ⟨c1, c2⟩ := C
  obtain ⟨d1, d2⟩ := C0
  simp only [Prod.mk_sub_mk, Prod.smul_mk, Prod.mk_add_mk, smul_eq_mul,
    Prod.mk.injEq]
  constructor <;> ring

/-- C6: for `alpha = 0` the DSR equation reduces exactly to the plain
kinetics rate, for every `C`, `t` and `C0`. -/
theorem dsr_fn_alpha_zero {K : Type} [Field K] {T : Type} (C : K × K) (t : T)
    (C0 : K × K) :
    dsr_fn C t ((0 : K), C0) = rate_fn C t := by
  simp [dsr_fn]

/-- C10: a side stream whose composition equals the current concentration
cancels the relaxation term entirely: `dsr_fn C t (alpha, C) = rate_fn C t`
for every `alpha`. -/
theorem dsr_fn_sidestream_self {K : Type} [Field K] {T : Type} (C : K × K)
    (t : T) (alpha : K) :
    dsr_fn C t (alpha, C) = rate_fn C t := by
  simp [dsr_fn]

/-- C8: the kinetics never use the time argument — the result is the same
for any two times of any types — and the output is fully determined by `C`
through the fixed mechanism with `k1 = k2 = 1`:
`(rA, rB) = (-k1*cA*cB, k1*cA*cB - k2*cB^2)`. -/
theorem rate_fn_time_independent {K : Type} [Field K] {T1 T2 : Type}
    (C : K × K) (t1 : T1) (t2 : T2) :
    rate_fn C t1 = rate_fn C t2 ∧
    rate_fn C t1 = (-1 * C.1 * C.2, 1 * C.1 * C.2 - 1 * C.2 ^ 2) :=
  ⟨rfl, rfl⟩

/-- The locus loop appends exactly one solution per residence time. -/
theorem cstr_locus_aux_length {K : Type} [Field K]
    (solve : ((K × K) → (K × K)) → (K × K) → (K × K)) :
    ∀ (taus : List K) (g : K × K),
      (cstr_locus_aux solve taus g).length = taus.length := by
  intro taus
  induction taus with
  | nil => intro g; rfl
  | cons tau rest ih => intro g; simp [cstr_locus_aux, ih]

/-- Unfolding of one iteration of the locus loop. -/
theorem cstr_locus_aux_cons {K : Type} [Field K]
    (solve : ((K × K) → (K × K)) → (K × K) → (K × K)) (tau : K)
    (rest : List K) (g : K × K) :
    cstr_locus_aux solve (tau :: rest) g
      = solve (cstr_fn tau) g
          :: cstr_locus_aux solve rest (solve (cstr_fn tau) g) := rfl

/-- Continuation step of the locus loop: the entry at position `i + 1` is the
solver's result for the residence time at position `i + 1`, seeded with the
entry at position `i`. -/
theorem cstr_locus_aux_step {K : Type} [Field K]
    (solve : ((K × K) → (K × K)) → (K × K) → (K × K)) :
    ∀ (taus : List K) (g : K × K) (i : ℕ) (tau : K) (prev : K × K),
      taus[i + 1]? = some tau →
      (cstr_locus_aux solve taus g)[i]? = some prev →
      (cstr_locus_aux solve taus g)[i + 1]? = some (solve (cstr_fn tau) prev) := by
  intro taus
  induction taus with
  | nil => intro g i tau prev h1 _; simp at h1
  | cons t rest ih =>
    intro g i tau prev h1 h2
    rw [cstr_locus_aux_cons] at h2 ⊢
    cases i with
    | zero =>
      simp only [List.getElem?_cons_succ] at h1
      simp only [List.getElem?_cons_zero, Option.some.injEq] at h2
      subst h2
      cases rest with
      | nil => simp at h1
      | cons t2 rest2 =>
        simp only [List.getElem?_cons_zero, Option.some.injEq] at h1
        subst h1
        simp only [List.getElem?_cons_succ]
        rw [cstr_locus_aux_cons]
        simp
    | succ j =>
      simp only [List.getElem?_cons_succ] at h1 h2 ⊢
      exact ih (solve (cstr_fn t) g) j tau prev h1 h2

/-- C2: the CSTR locus loop uses continuation seeding — the solver's initial
guess for the first residence time is the feed `cstr_cf`, the guess for
every later residence time is the solution returned for the immediately
preceding one, and exactly one solution is appended per residence time, in
order. -/
theorem cstr_cs_continuation {K : Type} [Field K]
    (solve : ((K × K) → (K × K)) → (K × K) → (K × K)) (taus : List K) :
    (cstr_cs solve taus).length = taus.length ∧
    (∀ (tau : K) (rest : List K), taus = tau :: rest →
      (cstr_cs solve taus).head? = some (solve (cstr_fn tau) cstr_cf)) ∧
    (∀ (i : ℕ) (tau : K) (prev : K × K),
      taus[i + 1]? = some tau →
      (cstr_cs solve taus)[i]? = some prev →
      (cstr_cs solve taus)[i + 1]? = some (solve (cstr_fn tau) prev)) := by
  refine ⟨cstr_locus_aux_length solve taus cstr_cf, ?_, ?_⟩
  · rintro tau rest rfl
    rfl
  · exact cstr_locus_aux_step solve taus cstr_cf

/-- A concrete stand-in for the root-finder, used to instantiate the
continuation theorem: one fixed-point-iteration step `g + f g` of the
residual `f` from the guess `g`. -/
def wsolve : ((ℚ × ℚ) → (ℚ × ℚ)) → (ℚ × ℚ) → (ℚ × ℚ) :=
  fun f g => g + f g

/-- Witness for C2 on the two-point residence-time grid `[1, 2]`. -/
theorem cstr_cs_continuation_witness :
    (cstr_cs wsolve [(1 : ℚ), 2]).length = 2 ∧
    (cstr_cs wsolve [(1 : ℚ), 2]).head? = some (wsolve (cstr_fn 1) cstr_cf) ∧
    (cstr_cs wsolve [(1 : ℚ), 2])[1]?
      = some (wsolve (cstr_fn 2) (wsolve (cstr_fn 1) cstr_cf)) := by
  obtain ⟨h1, h2, h3⟩ := cstr_cs_continuation wsolve [(1 : ℚ), 2]
  exact ⟨h1, h2 1 [2] rfl, h3 0 2 (wsolve (cstr_fn 1) cstr_cf) rfl rfl⟩

/-- C4: when the root-finder fails to converge at a residence time — its
result does not satisfy the residual — the loop does not halt: the
(possibly inaccurate) result is still appended to the locus, it is still
reused as the initial guess for the rest of the loop, and every remaining
residence time is still processed. -/
theorem cstr_loop_no_halt {K : Type} [Field K]
    (solve : ((K × K) → (K × K)) → (K × K) → (K × K)) (g : K × K)
    (tau : K) (rest : List K)
    (hfail : cstr_fn tau (solve (cstr_fn tau) g) ≠ 0) :
    cstr_locus_aux solve (tau :: rest) g
      = solve (cstr_fn tau) g
          :: cstr_locus_aux solve rest (solve (cstr_fn tau) g) ∧
    (cstr_locus_aux solve (tau :: rest) g).length = rest.length + 1 :=
  ⟨rfl, by simp [cstr_locus_aux_length]⟩

/-- A root-finder that never converges: it returns its initial guess
untouched. -/
def badsolve : ((ℚ × ℚ) → (ℚ × ℚ)) → (ℚ × ℚ) → (ℚ × ℚ) :=
  fun _f g => g

/-- Witness for C4: `badsolve` returns `cstr_cf` for `tau = 90`, whose
residual is `(-9, 81/10) ≠ 0`, yet the loop appends it, reuses it as the
next guess and processes the remaining residence time `100`. -/
theorem cstr_loop_no_halt_witness :
    cstr_fn (90 : ℚ) (badsolve (cstr_fn 90) cstr_cf) ≠ 0 ∧
    (cstr_locus_aux badsolve [(90 : ℚ), 100] cstr_cf
      = badsolve (cstr_fn 90) cstr_cf
          :: cstr_locus_aux badsolve [(100 : ℚ)] (badsolve (cstr_fn 90) cstr_cf) ∧
     (cstr_locus_aux badsolve [(90 : ℚ), 100] cstr_cf).length
       = [(100 : ℚ)].length + 1) :=
  have h : cstr_fn (90 : ℚ) (badsolve (cstr_fn 90) cstr_cf) ≠ 0 := by
    simp only [badsolve, cstr_fn, rate_fn, cstr_cf, Prod.mk_add_mk,
      Prod.mk_sub_mk, Prod.smul_mk, smul_eq_mul, Prod.mk_eq_zero, not_and]
    norm_num
  ⟨h, cstr_loop_no_halt badsolve cstr_cf 90 [100] h⟩

/-- `sp.logspace(a, b, n)`: `n` logarithmically spaced values
`10 ^ (a + i*(b - a)/(n - 1))` for `i = 0, ..., n-1`, so that the first
value is `10^a` and the last is `10^b`. -/
noncomputable def logspace (a b : ℝ) (n : ℕ) : List ℝ :=
  (List.range n).map fun (i : ℕ) =>
    (10 : ℝ) ^ (a + (i : ℝ) * ((b - a) / ((n : ℝ) - 1)))

/-- The CSTR residence-time grid
`cstr_ts = sp.logspace(-3, sp.log10(5e4), 100)`; `5e4 = 50000`. -/
noncomputable def cstr_ts : List ℝ := logspace (-3) (Real.logb 10 50000) 100

theorem logspace_length (a b : ℝ) (n : ℕ) : (logspace a b n).length = n := by
  rw [logspace, List.length_map, List.length_range]

theorem logspace_getElem (a b : ℝ) (n i : ℕ) (h : i < n) :
    (logspace a b n)[i]?
      = some ((10 : ℝ) ^ (a + (i : ℝ) * ((b - a) / ((n : ℝ) - 1)))) := by
  rw [logspace, List.getElem?_map, List.getElem?_range h, Option.map_some']

theorem logspace_first (a b : ℝ) (n : ℕ) (hn : 0 < n) :
    (logspace a b n)[0]? = some ((10 : ℝ) ^ a) := by
  rw [logspace_getElem a b n 0 hn]
  norm_num

theorem logspace_100_last (a b : ℝ) :
    (logspace a b 100)[99]? = some ((10 : ℝ) ^ b) := by
  rw [logspace_getElem a b 100 99 (by norm_num)]
  have h : a + ((99 : ℕ) : ℝ) * ((b - a) / (((100 : ℕ) : ℝ) - 1)) = b := by
    push_cast
    field_simp
    ring
  rw [h]

theorem rpow_neg_three : (10 : ℝ) ^ (-3 : ℝ) = 1 / 1000 := by
  rw [show (-3 : ℝ) = ((-3 : ℤ) : ℝ) by norm_num, Real.rpow_intCast]
  norm_num

/-- C5: the residence-time grid `cstr_ts` has exactly 100 logarithmically
spaced entries, the first is `1e-3 = 1/1000`, the last is `5e4 = 50000`,
and the sequence is strictly monotonically increasing. -/
theorem cstr_ts_spec :
    cstr_ts.length = 100 ∧
    cstr_ts[0]? = some ((1 : ℝ) / 1000) ∧
    cstr_ts[99]? = some (50000 : ℝ) ∧
    cstr_ts.Pairwise (· < ·) := by
  refine ⟨logspace_length _ _ _, ?_, ?_, ?_⟩
  · rw [cstr_ts, logspace_first _ _ _ (by norm_num), rpow_neg_three]
  · rw [cstr_ts, logspace_100_last,
      Real.rpow_logb (by norm_num) (by norm_num) (by norm_num)]
  · rw [cstr_ts, logspace, List.pairwise_map]
    have hs : 0 < (Real.logb 10 50000 - (-3)) / (((100 : ℕ) : ℝ) - 1) := by
      apply div_pos
      · have hl : 0 < Real.logb 10 50000 :=
          Real.logb_pos (by norm_num) (by norm_num)
        linarith
      · norm_num
    refine List.Pairwise.imp ?_ (List.pairwise_lt_range 100)
    intro i j hij
    rw [Real.rpow_lt_rpow_left_iff (by norm_num : (1 : ℝ) < 10)]
    have hij' : (i : ℝ) < (j : ℝ) := by exact_mod_cast hij
    exact add_lt_add_left (mul_lt_mul_of_pos_right hij' hs) _

/-- The data the interactive plot driver computes before rendering: the DSR
feed vector, the integration time grid, the options pair handed to the
integrator, and the resulting trajectory. -/
structure DsrPlot where
  Cf : ℝ × ℝ
  ts : List ℝ
  dsr_opts : ℝ × (ℝ × ℝ)
  dsr_cs : List (ℝ × ℝ)

/-- The computational part of the interactive plot driver
`plot_fn(t_end, alpha, Cf_x, Cf_y)`: build the feed `Cf = [Cf_x, Cf_y]` and
the grid `ts = sp.logspace(-3, sp.log10(t_end), 100)`, set the side-stream
composition `C0 = cstr_cf`, and integrate the DSR equation with the abstract
integrator `odeint` (modelling `scipy.integrate.odeint`).  The rendering
side effects are out of scope. -/
noncomputable def plot_fn
    (odeint : ((ℝ × ℝ) → ℝ → (ℝ × (ℝ × ℝ)) → ℝ × ℝ) →
      (ℝ × ℝ) → List ℝ → (ℝ × (ℝ × ℝ)) → List (ℝ × ℝ))
    (t_end alpha Cf_x Cf_y : ℝ) : DsrPlot :=
  let Cf : ℝ × ℝ := (Cf_x, Cf_y)
  let ts := logspace (-3) (Real.logb 10 t_end) 100
  let C0 : ℝ × ℝ := cstr_cf
  let dsr_opts := (alpha, C0)
  let dsr_cs := odeint dsr_fn Cf ts dsr_opts
  ⟨Cf, ts, dsr_opts, dsr_cs⟩

/-- C7: for every slider setting, the plot driver integrates the DSR
equation from the feed `[Cf_x, Cf_y]` over a 100-point logarithmic time grid
running from `1e-3 = 1/1000` to `t_end`, and the side-stream composition it
passes to the integrator is always the fixed CSTR feed `cstr_cf`,
independent of the slider-chosen DSR feed. -/
theorem plot_fn_spec
    (odeint : ((ℝ × ℝ) → ℝ → (ℝ × (ℝ × ℝ)) → ℝ × ℝ) →
      (ℝ × ℝ) → List ℝ → (ℝ × (ℝ × ℝ)) → List (ℝ × ℝ))
    (t_end alpha Cf_x Cf_y : ℝ) (h : 0 < t_end) :
    (plot_fn odeint t_end alpha Cf_x Cf_y).Cf = (Cf_x, Cf_y) ∧
    (plot_fn odeint t_end alpha Cf_x Cf_y).ts
      = logspace (-3) (Real.logb 10 t_end) 100 ∧
    (plot_fn odeint t_end alpha Cf_x Cf_y).ts.length = 100 ∧
    (plot_fn odeint t_end alpha Cf_x Cf_y).ts[0]? = some ((1 : ℝ) / 1000) ∧
    (plot_fn odeint t_end alpha Cf_x Cf_y).ts[99]? = some t_end ∧
    (plot_fn odeint t_end alpha Cf_x Cf_y).dsr_opts = (alpha, cstr_cf) ∧
    (plot_fn odeint t_end alpha Cf_x Cf_y).dsr_cs
      = odeint dsr_fn (Cf_x, Cf_y) (logspace (-3) (Real.logb 10 t_end) 100)
          (alpha, cstr_cf) := by
  refine ⟨rfl, rfl, logspace_length _ _ _, ?_, ?_, rfl, rfl⟩
  · show (logspace (-3) (Real.logb 10 t_end) 100)[0]? = some ((1 : ℝ) / 1000)
    rw [logspace_first _ _ _ (by norm_num), rpow_neg_three]
  · show (logspace (-3) (Real.logb 10 t_end) 100)[99]? = some t_end
    rw [logspace_100_last, Real.rpow_logb (by norm_num) (by norm_num) h]

/-- A concrete stand-in for the ODE integrator: it returns the constant
trajectory at the initial state, one sample per grid point. -/
noncomputable def wodeint :
    ((ℝ × ℝ) → ℝ → (ℝ × (ℝ × ℝ)) → ℝ × ℝ) →
      (ℝ × ℝ) → List ℝ → (ℝ × (ℝ × ℝ)) → List (ℝ × ℝ) :=
  fun _rhs c0 ts _opts => ts.map fun _ => c0

/-- Witness for C7 at the default slider setting
`t_end = 1000`, `alpha = 0`, `Cf_x = 1`, `Cf_y = 1/10`. -/
theorem plot_fn_spec_witness :
    (0 : ℝ) < 1000 ∧
    ((plot_fn wodeint 1000 0 1 (1 / 10)).Cf = ((1 : ℝ), 1 / 10) ∧
     (plot_fn wodeint 1000 0 1 (1 / 10)).ts
       = logspace (-3) (Real.logb 10 1000) 100 ∧
     (plot_fn wodeint 1000 0 1 (1 / 10)).ts.length = 100 ∧
     (plot_fn wodeint 1000 0 1 (1 / 10)).ts[0]? = some ((1 : ℝ) / 1000) ∧
     (plot_fn wodeint 1000 0 1 (1 / 10)).ts[99]? = some (1000 : ℝ) ∧
     (plot_fn wodeint 1000 0 1 (1 / 10)).dsr_opts = ((0 : ℝ), cstr_cf) ∧
     (plot_fn wodeint 1000 0 1 (1 / 10)).dsr_cs
       = wodeint dsr_fn ((1 : ℝ), 1 / 10)
           (logspace (-3) (Real.logb 10 1000) 100) ((0 : ℝ), cstr_cf)) :=
  ⟨by norm_num, plot_fn_spec wodeint 1000 0 1 (1 / 10) (by norm_num)⟩

end DsrCstr

namespace Hplane

/-- The fixed half-plane constraint matrix of the bounding-hyperplane demo:
`A = [[-1, 0], [0, -1], [1, 1], [-0.1, 0.8]]`, with `-0.1 = -1/10` and
`0.8 = 8/10`. -/
def hplane_A : Matrix (Fin 4) (Fin 2) ℚ :=
  Matrix.of ![![-1, 0], ![0, -1], ![1, 1], ![-1 / 10, 8 / 10]]

/-- The computational part of the polytope demo's `plot_fn(bi)`: build the
constraint matrix `A` and the bound vector `b = [0, 0, 1, bi]`, and hand
both to the abstract vertex enumerator `con2vert` (modelling
`artools.con2vert`, whose source is not part of this repository excerpt).
The rendering side effects are out of scope. -/
def plot_fn {P : Type} (con2vert : Matrix (Fin 4) (Fin 2) ℚ → (Fin 4 → ℚ) → P)
    (bi : ℚ) : Matrix (Fin 4) (Fin 2) ℚ × (Fin 4 → ℚ) × P :=
  let A : Matrix (Fin 4) (Fin 2) ℚ :=
    Matrix.of ![![-1, 0], ![0, -1], ![1, 1], ![-1 / 10, 8 / 10]]
  let b : Fin 4 → ℚ := ![0, 0, 1, bi]
  (A, b, con2vert A b)

/-- C9: for every slider value `bi` the constraint matrix handed to the
vertex enumeration is the fixed matrix `hplane_A`, the bound vector is
`[0, 0, 1, bi]`, and only the last bound entry varies with the slider — all
other entries agree across any two slider values. -/
theorem plot_fn_constraints {P : Type}
    (con2vert : Matrix (Fin 4) (Fin 2) ℚ → (Fin 4 → ℚ) → P) (bi : ℚ) :
    (plot_fn con2vert bi).1 = hplane_A ∧
    (plot_fn con2vert bi).2.1 = ![0, 0, 1, bi] ∧
    (∀ (bi' : ℚ) (i : Fin 4), i ≠ 3 →
      (plot_fn con2vert bi).2.1 i = (plot_fn con2vert bi').2.1 i) ∧
    (plot_fn con2vert bi).2.2 = con2vert hplane_A ![0, 0, 1, bi] := by
  refine ⟨rfl, rfl, ?_, rfl⟩
  intro bi' i hi
  fin_cases i
  · rfl
  · rfl
  · rfl
  · exact absurd rfl hi

/-- A concrete stand-in for the vertex enumerator: it records its inputs. -/
def wcon2vert :
    Matrix (Fin 4) (Fin 2) ℚ → (Fin 4 → ℚ) →
      Matrix (Fin 4) (Fin 2) ℚ × (Fin 4 → ℚ) :=
  fun A b => (A, b)

/-- Witness for C9: the bound entry at index `0 ≠ 3` agrees between the
slider values `bi = 1/2` and `bi' = 1`. -/
theorem plot_fn_constraints_witness :
    ((0 : Fin 4) ≠ 3) ∧
    (plot_fn wcon2vert (1 / 2)).2.1 0 = (plot_fn wcon2vert 1).2.1 0 :=
  ⟨by decide, (plot_fn_constraints wcon2vert (1 / 2)).2.2.1 1 0 (by decide)⟩

end Hplane
